import Mathlib

/- Shallow embedding of `src/python/geotag_from_gpx.py` from mapillary_tools.
Times, coordinates and bearings are modelled as rationals: Python's
`datetime`/`timedelta` arithmetic is exact integer arithmetic at microsecond
resolution, abstracted here as exact rational arithmetic. -/

namespace Geotag

/-- Python's float modulo `x % y` for positive `y` (used by the source as
`r % 360`): the result is `x - y * floor (x / y)`, which lies in `[0, y)`
whenever `y > 0`. -/
def pymod (x y : ℚ) : ℚ := x - y * (⌊x / y⌋ : ℚ)

/-- Transcription of `add_bearing_offset` (geotag_from_gpx.py, lines 69-78):
`r = bearing + offset`; `if r >= 0 and r < 360: return r`;
`if r >= 360: return r % 360`; `return -(-r % 360)`. -/
def add_bearing_offset (bearing offset : ℚ) : ℚ :=
  let r := bearing + offset
  if 0 ≤ r ∧ r < 360 then r
  else if 360 ≤ r then pymod r 360
  else -(pymod (-r) 360)

/-- One GPX sample: the tuple `(time, latitude, longitude, elevation)` built by
`get_lat_lon_time`; `elevation` may be missing (`None`). -/
structure GpxPoint where
  time : ℚ
  latitude : ℚ
  longitude : ℚ
  elevation : Option ℚ
deriving DecidableEq, Repr

/-- A GPX track segment (`segment.points`). -/
structure GpxSegment where
  points : List GpxPoint
deriving DecidableEq, Repr

/-- A GPX track (`track.segments`). -/
structure GpxTrack where
  segments : List GpxSegment
deriving DecidableEq, Repr

/-- A parsed GPX file as consumed by `get_lat_lon_time`: recorded tracks plus
standalone waypoints.  Parsing the file format itself is an external
collaborator and is not modelled. -/
structure GpxFile where
  tracks : List GpxTrack
  waypoints : List GpxPoint
deriving DecidableEq, Repr

/-- Modelled from the spec: `utc_to_localtime` lives in `lib/geo.py`, which is
not part of the sources; the spec only says it converts a sample's UTC time to
the host's local timezone.  The conversion is therefore abstracted as an
arbitrary function `conv` on times, applied to the `time` field only. -/
def applyLocaltime (conv : ℚ → ℚ) (p : GpxPoint) : GpxPoint :=
  { p with time := conv p.time }

/-- The point-collection phase of `get_lat_lon_time` (lines 47-61): every point
of every segment of every track, each converted to local time when
`use_localtime` is set, followed by every waypoint, converted the same way.
(The source's `len(...) > 0` guards are no-ops: looping over an empty list
appends nothing.) -/
def collectPoints (conv : ℚ → ℚ) (use_localtime : Bool) (g : GpxFile) : List GpxPoint :=
  (g.tracks.flatMap fun t => t.segments.flatMap fun s =>
    s.points.map fun p => if use_localtime then applyLocaltime conv p else p)
  ++ (g.waypoints.map fun p => if use_localtime then applyLocaltime conv p else p)

/-- All points of a GPX file in source order, without any time conversion. -/
def gpxAllPoints (g : GpxFile) : List GpxPoint :=
  (g.tracks.flatMap fun t => t.segments.flatMap fun s => s.points) ++ g.waypoints

/-- One step of Python's lexicographic tuple comparison: compare a component,
fall through to the remaining components on a tie. -/
def lexStep (a b : ℚ) (rest : Bool) : Bool :=
  if a < b then true else if b < a then false else rest

/-- Ordering of the optional elevation component under Python 2's cross-type
comparison, where `None` sorts before every number. -/
def optLe : Option ℚ → Option ℚ → Bool
  | none, _ => true
  | some _, none => false
  | some x, some y => decide (x ≤ y)

/-- Python's `points.sort()` comparison on the 4-tuples
`(time, latitude, longitude, elevation)`: lexicographic. -/
def ptLe (p q : GpxPoint) : Bool :=
  lexStep p.time q.time
    (lexStep p.latitude q.latitude
      (lexStep p.longitude q.longitude (optLe p.elevation q.elevation)))

/-- Transcription of `get_lat_lon_time` (lines 32-66): collect all track-segment
points and waypoints (converting each to local time iff `use_localtime`), then
`points.sort()`. -/
def get_lat_lon_time (conv : ℚ → ℚ) (g : GpxFile) (use_localtime : Bool) : List GpxPoint :=
  (collectPoints conv use_localtime g).mergeSort ptLe

/-- The three ways `estimate_sub_second_time` can exit: return a list of refined
times, print a message and return `None` (modelled as `incompatible`), or raise
an uncaught `NameError`/`UnboundLocalError` because `smin`/`smax` were never
assigned (modelled as `nameError`). -/
inductive SubSecondResult where
  | ok (times : List ℚ)
  | incompatible
  | nameError
deriving DecidableEq, Repr

/-- The `smin` accumulator of the loop in `estimate_sub_second_time`
(lines 161-169): starting from the first image's recorded time, take the
running maximum of `m - T * i` over the remaining images.  The source's single
loop updates `smin` and `smax` independently, so it is split here into two
structurally identical recursions. -/
def maxLower (T : ℚ) : ℕ → List ℚ → ℚ → ℚ
  | _, [], acc => acc
  | i, m :: rest, acc => maxLower T (i + 1) rest (max acc (m - T * (i : ℚ)))

/-- The `smax` accumulator of the same loop: starting from the first image's
recorded time plus one second, take the running minimum of `m - T * i + 1`
over the remaining images. -/
def minUpper (T : ℚ) : ℕ → List ℚ → ℚ → ℚ
  | _, [], acc => acc
  | i, m :: rest, acc => minUpper T (i + 1) rest (min acc (m - T * (i : ℚ) + 1))

/-- Transcription of `estimate_sub_second_time` (lines 148-176), with the
per-file EXIF reads abstracted into the input list `times` of recorded capture
times (`m = exif_time(f)`): if `interval <= 0` return the recorded times
unchanged; on an empty file list the loop never assigns `smin`/`smax` and the
comparison `smin > smax` raises an uncaught `NameError`; otherwise intersect
the per-image windows, fail when `smin > smax`, and else return
`s + T * i` for `i in range(len(files))` with `s = smin + (smax - smin) / 2`. -/
def estimate_sub_second_time (times : List ℚ) (interval : ℚ) : SubSecondResult :=
  if interval ≤ 0 then .ok times
  else
    match times with
    | [] => .nameError
    | m :: rest =>
      let smin := maxLower interval 1 rest m
      let smax := minUpper interval 1 rest (m + 1)
      if smax < smin then .incompatible
      else
        let s := smin + (smax - smin) / 2
        .ok ((List.range (rest.length + 1)).map fun i : ℕ => s + interval * (i : ℚ))

/-- The spec's `lowerBound`: the maximum over all images `i` (including image 0,
whose window seeds the loop) of `m_i - i * interval`. -/
def lowerBound : List ℚ → ℚ → ℚ
  | [], _ => 0
  | m :: rest, T => maxLower T 1 rest m

/-- The spec's `upperBound`: the minimum over all images `i` of
`m_i - i * interval + 1`. -/
def upperBound : List ℚ → ℚ → ℚ
  | [], _ => 0
  | m :: rest, T => minUpper T 1 rest (m + 1)

/-- The lower end `m_i - T * i` of image `i`'s feasibility window for the common
base time. -/
def window (times : List ℚ) (T : ℚ) (i : ℕ) : ℚ := times.getD i 0 - T * (i : ℚ)

/-- Recorded capture times truncated to whole seconds from a true base time and
a constant shooting interval: image `i` records `floor (base + T * i)`. -/
def syntheticTimes (base T : ℚ) (n : ℕ) : List ℚ :=
  (List.range n).map fun i : ℕ => ((⌊base + T * (i : ℚ)⌋ : ℤ) : ℚ)

/-- The uncaught Python exceptions the embedding tracks. -/
inductive PyError where
  | unboundLocal (name : String)
deriving DecidableEq, Repr

/-- Transcription of `exif_time` (lines 130-145).  Inputs: the value of
`Exif.Photo.DateTimeOriginal` (`none` when the key is missing or its value
fails to parse, so that the `try` block aborts before assigning `image_time`)
and the parsed integer value of `Exif.Photo.SubSecTimeOriginal` (`none` when
that key is missing — `KeyError` — or not an integer — `ValueError`; both are
caught and leave `image_millisec = 0`).  When `DateTimeOriginal` is absent the
addition after the `try` block reads the never-assigned local `image_time` and
raises an uncaught `UnboundLocalError`. -/
def exif_time (dateTimeOriginal : Option ℚ) (subSecOriginal : Option ℤ) : Except PyError ℚ :=
  match dateTimeOriginal with
  | none => .error (.unboundLocal "image_time")
  | some t =>
    match subSecOriginal with
    | none => .ok t
    | some ms => .ok (t + (ms : ℚ) / 1000)

/-- The interpolated result consumed by `add_exif_using_timestamp`:
`lat, lon, bearing, elevation = interpolate_lat_lon(points, t)`. -/
structure Fix where
  lat : ℚ
  lon : ℚ
  bearing : ℚ
  elevation : Option ℚ
deriving DecidableEq, Repr

/-- What one call of `add_exif_using_timestamp` does to one image: either the
metadata write happens (with the values that were computed), or the image is
skipped with a printed `Skipping {filename}: {reason}` message and nothing is
written. -/
inductive ExifOutcome where
  | written (filename : String) (lat lon : ℚ) (bearing : ℚ) (elevation : Option ℚ)
  | skipped (filename : String) (reason : String)
deriving DecidableEq, Repr

/-- Transcription of `add_exif_using_timestamp` (lines 81-127), with the
interpolator abstracted: `interpolate_lat_lon` lives in `lib/geo.py`, which is
not part of the sources.  Modelled from the spec: it either returns a fix or
raises `ValueError` (`OutOfRangeError`) when the query time falls outside the
track; it is passed here as a function `interp` returning an `Except`.  The
query time is `t = time - offset_time`; on an error the image is skipped with
the error's message, otherwise the bearing offset is applied and the fix is
written. -/
def add_exif_using_timestamp (interp : List GpxPoint → ℚ → Except String Fix)
    (filename : String) (time : ℚ) (points : List GpxPoint)
    (offset_time : ℚ) (bearing_offset : ℚ) : ExifOutcome :=
  let t := time - offset_time
  match interp points t with
  | .error e => .skipped filename e
  | .ok fix =>
      .written filename fix.lat fix.lon
        (add_bearing_offset fix.bearing bearing_offset) fix.elevation

/-- The per-image batch loop of `__main__` (lines 247-248):
`for filepath, filetime in zip(file_list, sub_second_times): add_exif_using_timestamp(...)`.
Each image yields exactly one outcome; exceptions from interpolation are caught
inside `add_exif_using_timestamp`, so the loop always runs to the end. -/
def geotagLoop (interp : List GpxPoint → ℚ → Except String Fix)
    (files : List (String × ℚ)) (points : List GpxPoint)
    (offset_time : ℚ) (bearing_offset : ℚ) : List ExifOutcome :=
  files.map fun ft =>
    add_exif_using_timestamp interp ft.1 ft.2 points offset_time bearing_offset

/-! Theorems. -/

/-- Helper: the collection phase equals a single conversion map over all points
of the file in source order. -/
theorem collectPoints_eq_map (conv : ℚ → ℚ) (b : Bool) (g : GpxFile) :
    collectPoints conv b g
      = (gpxAllPoints g).map fun p => if b then applyLocaltime conv p else p := by
  simp [collectPoints, gpxAllPoints, List.map_append, List.map_flatMap]

/-- C1 (code bug): `add_bearing_offset`'s own docstring promises a result in
`[0, 360)`, but for a negative sum the branch `-(-r % 360)` negates a value of
`[0, 360)` and returns a negative number: at bearing `-10`, offset `0` the
function returns `-10`. -/
theorem add_bearing_offset_negative_not_normalized :
    add_bearing_offset (-10) 0 = -10 ∧ add_bearing_offset (-10) 0 < 0 := by
  have hfloor : ⌊((10 : ℚ)) / 360⌋ = 0 := by
    rw [Int.floor_eq_zero_iff, Set.mem_Ico]
    constructor <;> norm_num
  have hval : add_bearing_offset (-10) 0 = -10 := by
    unfold add_bearing_offset pymod
    norm_num [hfloor]
  exact ⟨hval, by rw [hval]; norm_num⟩

/-- C2 (counterexample): on a GPX file with no tracks and no waypoints,
`get_lat_lon_time` returns the empty list as an ordinary value — it does not
fail; no `EmptyTrackError` (or any other error) exists in the code. -/
theorem get_lat_lon_time_empty_returns_value :
    get_lat_lon_time (fun t => t) ⟨[], []⟩ true = [] := by
  rw [get_lat_lon_time, collectPoints_eq_map]
  simp [gpxAllPoints]

/-- C2 (amended): when the track source yields zero points (all track segments
and the waypoint list empty), `get_lat_lon_time` returns the empty sequence
rather than failing; the emptiness is not detected by the loader. -/
theorem get_lat_lon_time_empty_eq_nil (conv : ℚ → ℚ) (g : GpxFile) (flag : Bool)
    (h : gpxAllPoints g = []) : get_lat_lon_time conv g flag = [] := by
  rw [get_lat_lon_time, collectPoints_eq_map, h]
  simp

/-- Witness for `get_lat_lon_time_empty_eq_nil` at a concrete empty GPX file. -/
theorem get_lat_lon_time_empty_eq_nil_witness :
    get_lat_lon_time (fun t => t + 1) ⟨[], []⟩ false = [] :=
  get_lat_lon_time_empty_eq_nil (fun t => t + 1) ⟨[], []⟩ false rfl

/-- C5: when the shooting interval is not positive, `estimate_sub_second_time`
returns the recorded capture times unchanged. -/
theorem estimate_sub_second_time_nonpos_interval (times : List ℚ) (interval : ℚ)
    (h : interval ≤ 0) : estimate_sub_second_time times interval = .ok times := by
  unfold estimate_sub_second_time
  rw [if_pos h]

/-- Witness for `estimate_sub_second_time_nonpos_interval` at interval `0`. -/
theorem estimate_sub_second_time_nonpos_interval_witness :
    estimate_sub_second_time [3, 7] 0 = .ok [3, 7] :=
  estimate_sub_second_time_nonpos_interval [3, 7] 0 le_rfl

/-- C9 (code bug): when `Exif.Photo.DateTimeOriginal` is missing (or fails to
parse), the `try` block aborts before `image_time` is assigned, and the
addition after the block raises an uncaught `UnboundLocalError` — the failure
propagates instead of being reported and skipped. -/
theorem exif_time_missing_datetime_unbound_local (s : Option ℤ) :
    exif_time none s = .error (.unboundLocal "image_time") := rfl

/-- C10: on an empty image sequence with a positive interval, the loop of
`estimate_sub_second_time` never assigns `smin`/`smax`, so the comparison
after the loop raises an uncaught `NameError`. -/
theorem estimate_sub_second_time_empty_nameError (interval : ℚ) (h : 0 < interval) :
    estimate_sub_second_time [] interval = .nameError := by
  unfold estimate_sub_second_time
  rw [if_neg (not_le.mpr h)]

/-- Witness for `estimate_sub_second_time_empty_nameError` at interval `1`. -/
theorem estimate_sub_second_time_empty_nameError_witness :
    estimate_sub_second_time [] 1 = .nameError :=
  estimate_sub_second_time_empty_nameError 1 one_pos

/-- Helper: the `smin` accumulator never drops below its starting value. -/
theorem init_le_maxLower (T : ℚ) (l : List ℚ) : ∀ (k : ℕ) (a : ℚ), a ≤ maxLower T k l a := by
  induction l with
  | nil => intro k a; simp [maxLower]
  | cons m rest ih =>
    intro k a
    simp only [maxLower]
    exact le_trans (le_max_left _ _) (ih (k + 1) _)

/-- Helper: the `smax` accumulator never rises above its starting value. -/
theorem minUpper_le_init (T : ℚ) (l : List ℚ) : ∀ (k : ℕ) (a : ℚ), minUpper T k l a ≤ a := by
  induction l with
  | nil => intro k a; simp [minUpper]
  | cons m rest ih =>
    intro k a
    simp only [minUpper]
    exact le_trans (ih (k + 1) _) (min_le_left _ _)

/-- Helper: any upper bound of the start value and of every window's lower end
bounds the `smin` accumulator. -/
theorem maxLower_le (T : ℚ) (l : List ℚ) : ∀ (k : ℕ) (a c : ℚ), a ≤ c →
    (∀ j < l.length, l.getD j 0 - T * ((k + j : ℕ) : ℚ) ≤ c) → maxLower T k l a ≤ c := by
  induction l with
  | nil => intro k a c ha _; simpa [maxLower] using ha
  | cons m rest ih =>
    intro k a c ha h
    simp only [maxLower]
    apply ih (k + 1) _ c
    · refine max_le ha ?_
      have h0 := h 0 (by simp)
      simpa using h0
    · intro j hj
      have hj1 := h (j + 1) (by simpa using Nat.succ_lt_succ hj)
      have hidx : k + (j + 1) = k + 1 + j := by omega
      simpa [List.getD_cons_succ, hidx] using hj1

/-- Helper: the `smin` accumulator dominates every window's lower end. -/
theorem le_maxLower_elem (T : ℚ) (l : List ℚ) : ∀ (k : ℕ) (a : ℚ) (j : ℕ), j < l.length →
    l.getD j 0 - T * ((k + j : ℕ) : ℚ) ≤ maxLower T k l a := by
  induction l with
  | nil => intro k a j hj; simp at hj
  | cons m rest ih =>
    intro k a j hj
    simp only [maxLower]
    cases j with
    | zero =>
      refine le_trans ?_ (init_le_maxLower T rest (k + 1) _)
      simp
    | succ j =>
      have hj' : j < rest.length := by simpa using Nat.lt_of_succ_lt_succ hj
      have := ih (k + 1) (max a (m - T * (k : ℚ))) j hj'
      have hidx : k + (j + 1) = k + 1 + j := by omega
      simpa [List.getD_cons_succ, hidx] using this

/-- Helper: any lower bound of the start value and of every window's upper end
is below the `smax` accumulator, strictly when the bounds are strict. -/
theorem lt_minUpper (T : ℚ) (l : List ℚ) : ∀ (k : ℕ) (a c : ℚ), c < a →
    (∀ j < l.length, c < l.getD j 0 - T * ((k + j : ℕ) : ℚ) + 1) → c < minUpper T k l a := by
  induction l with
  | nil => intro k a c ha _; simpa [minUpper] using ha
  | cons m rest ih =>
    intro k a c ha h
    simp only [minUpper]
    apply ih (k + 1) _ c
    · refine lt_min ha ?_
      have h0 := h 0 (by simp)
      simpa using h0
    · intro j hj
      have hj1 := h (j + 1) (by simpa using Nat.succ_lt_succ hj)
      have hidx : k + (j + 1) = k + 1 + j := by omega
      simpa [List.getD_cons_succ, hidx] using hj1

/-- Helper: the `smax` accumulator lies below every window's upper end. -/
theorem minUpper_le_elem (T : ℚ) (l : List ℚ) : ∀ (k : ℕ) (a : ℚ) (j : ℕ), j < l.length →
    minUpper T k l a ≤ l.getD j 0 - T * ((k + j : ℕ) : ℚ) + 1 := by
  induction l with
  | nil => intro k a j hj; simp at hj
  | cons m rest ih =>
    intro k a j hj
    simp only [minUpper]
    cases j with
    | zero =>
      refine le_trans (minUpper_le_init T rest (k + 1) _) ?_
      simp
    | succ j =>
      have hj' : j < rest.length := by simpa using Nat.lt_of_succ_lt_succ hj
      have := ih (k + 1) (min a (m - T * (k : ℚ) + 1)) j hj'
      have hidx : k + (j + 1) = k + 1 + j := by omega
      simpa [List.getD_cons_succ, hidx] using this

/-- Helper: the `smin` accumulator is attained at its start value or at some
window's lower end. -/
theorem maxLower_attained (T : ℚ) (l : List ℚ) : ∀ (k : ℕ) (a : ℚ),
    maxLower T k l a = a ∨
    ∃ j < l.length, maxLower T k l a = l.getD j 0 - T * ((k + j : ℕ) : ℚ) := by
  induction l with
  | nil => intro k a; left; simp [maxLower]
  | cons m rest ih =>
    intro k a
    simp only [maxLower]
    rcases ih (k + 1) (max a (m - T * (k : ℚ))) with h | ⟨j, hj, h⟩
    · rcases max_choice a (m - T * (k : ℚ)) with hm | hm
      · left; rw [h, hm]
      · right
        refine ⟨0, by simp, ?_⟩
        rw [h, hm]
        norm_num
    · right
      refine ⟨j + 1, by simpa using Nat.succ_lt_succ hj, ?_⟩
      rw [h]
      have hidx : k + 1 + j = k + (j + 1) := by omega
      simp [List.getD_cons_succ, hidx]

/-- Helper: the `smax` accumulator is attained at its start value or at some
window's upper end. -/
theorem minUpper_attained (T : ℚ) (l : List ℚ) : ∀ (k : ℕ) (a : ℚ),
    minUpper T k l a = a ∨
    ∃ j < l.length, minUpper T k l a = l.getD j 0 - T * ((k + j : ℕ) : ℚ) + 1 := by
  induction l with
  | nil => intro k a; left; simp [minUpper]
  | cons m rest ih =>
    intro k a
    simp only [minUpper]
    rcases ih (k + 1) (min a (m - T * (k : ℚ) + 1)) with h | ⟨j, hj, h⟩
    · rcases min_choice a (m - T * (k : ℚ) + 1) with hm | hm
      · left; rw [h, hm]
      · right
        refine ⟨0, by simp, ?_⟩
        rw [h, hm]
        norm_num
    · right
      refine ⟨j + 1, by simpa using Nat.succ_lt_succ hj, ?_⟩
      rw [h]
      have hidx : k + 1 + j = k + (j + 1) := by omega
      simp [List.getD_cons_succ, hidx]

/-- Helper: the head's window lower end written through `window`. -/
theorem window_cons_zero (m : ℚ) (rest : List ℚ) (T : ℚ) : window (m :: rest) T 0 = m := by
  simp [window]

/-- Helper: a tail element's window lower end written through `window`. -/
theorem window_cons_succ (m : ℚ) (rest : List ℚ) (T : ℚ) (j : ℕ) :
    window (m :: rest) T (j + 1) = rest.getD j 0 - T * ((1 + j : ℕ) : ℚ) := by
  have hidx : (1 + j : ℕ) = j + 1 := by omega
  simp [window, List.getD_cons_succ, hidx]

/-- Helper: every window's lower end is at most `lowerBound`. -/
theorem window_le_lowerBound (m : ℚ) (rest : List ℚ) (T : ℚ) :
    ∀ i < (m :: rest).length, window (m :: rest) T i ≤ lowerBound (m :: rest) T := by
  intro i hi
  cases i with
  | zero =>
    rw [window_cons_zero, lowerBound]
    exact init_le_maxLower T rest 1 m
  | succ j =>
    rw [window_cons_succ, lowerBound]
    exact le_maxLower_elem T rest 1 m j (by simpa using Nat.lt_of_succ_lt_succ hi)

/-- Helper: `lowerBound` is at most any common upper bound of the windows'
lower ends. -/
theorem lowerBound_le (m : ℚ) (rest : List ℚ) (T c : ℚ)
    (h : ∀ i < (m :: rest).length, window (m :: rest) T i ≤ c) :
    lowerBound (m :: rest) T ≤ c := by
  rw [lowerBound]
  apply maxLower_le T rest 1 m c
  · simpa [window_cons_zero] using h 0 (by simp)
  · intro j hj
    have := h (j + 1) (by simpa using Nat.succ_lt_succ hj)
    rwa [window_cons_succ] at this

/-- Helper: `lowerBound` is attained at some window's lower end. -/
theorem lowerBound_attained (m : ℚ) (rest : List ℚ) (T : ℚ) :
    ∃ i < (m :: rest).length, lowerBound (m :: rest) T = window (m :: rest) T i := by
  rw [lowerBound]
  rcases maxLower_attained T rest 1 m with h | ⟨j, hj, h⟩
  · exact ⟨0, by simp, by rw [h, window_cons_zero]⟩
  · exact ⟨j + 1, by simpa using Nat.succ_lt_succ hj, by rw [h, window_cons_succ]⟩

/-- Helper: `upperBound` is at most every window's upper end. -/
theorem upperBound_le_window (m : ℚ) (rest : List ℚ) (T : ℚ) :
    ∀ i < (m :: rest).length, upperBound (m :: rest) T ≤ window (m :: rest) T i + 1 := by
  intro i hi
  cases i with
  | zero =>
    rw [window_cons_zero, upperBound]
    exact minUpper_le_init T rest 1 (m + 1)
  | succ j =>
    rw [window_cons_succ, upperBound]
    exact minUpper_le_elem T rest 1 (m + 1) j (by simpa using Nat.lt_of_succ_lt_succ hi)

/-- Helper: anything strictly below every window's upper end is strictly below
`upperBound`. -/
theorem lt_upperBound (m : ℚ) (rest : List ℚ) (T c : ℚ)
    (h : ∀ i < (m :: rest).length, c < window (m :: rest) T i + 1) :
    c < upperBound (m :: rest) T := by
  rw [upperBound]
  apply lt_minUpper T rest 1 (m + 1) c
  · simpa [window_cons_zero] using h 0 (by simp)
  · intro j hj
    have := h (j + 1) (by simpa using Nat.succ_lt_succ hj)
    rwa [window_cons_succ] at this

/-- Helper: `upperBound` is attained at some window's upper end. -/
theorem upperBound_attained (m : ℚ) (rest : List ℚ) (T : ℚ) :
    ∃ i < (m :: rest).length, upperBound (m :: rest) T = window (m :: rest) T i + 1 := by
  rw [upperBound]
  rcases minUpper_attained T rest 1 (m + 1) with h | ⟨j, hj, h⟩
  · exact ⟨0, by simp, by rw [h, window_cons_zero]⟩
  · exact ⟨j + 1, by simpa using Nat.succ_lt_succ hj, by rw [h, window_cons_succ]⟩

/-- Helper: with a positive interval and a nonempty list, the estimator fails
iff the intersected window `[lowerBound, upperBound]` is empty. -/
theorem estimate_incompatible_iff_bounds (m : ℚ) (rest : List ℚ) (T : ℚ) (hT : 0 < T) :
    estimate_sub_second_time (m :: rest) T = .incompatible ↔
    upperBound (m :: rest) T < lowerBound (m :: rest) T := by
  unfold estimate_sub_second_time
  rw [if_neg (not_le.mpr hT)]
  simp only [lowerBound, upperBound]
  split_ifs with h
  · simp [h]
  · simp [h]

/-- Helper: with a positive interval, a nonempty list and a nonempty
intersected window, the estimator returns `base + T * i` over the original
order, with `base` the midpoint of the window. -/
theorem estimate_ok_aux (m : ℚ) (rest : List ℚ) (T : ℚ) (hT : 0 < T)
    (hfeas : lowerBound (m :: rest) T ≤ upperBound (m :: rest) T) :
    estimate_sub_second_time (m :: rest) T =
      .ok ((List.range (rest.length + 1)).map fun i : ℕ =>
        (lowerBound (m :: rest) T + upperBound (m :: rest) T) / 2 + T * (i : ℚ)) := by
  rw [lowerBound, upperBound] at hfeas
  unfold estimate_sub_second_time
  rw [if_neg (not_le.mpr hT)]
  simp only [lowerBound, upperBound]
  rw [if_neg (not_lt.mpr hfeas)]
  congr 1
  apply List.map_congr_left
  intro i _
  ring

/-- C3: with a positive interval and at least one image, the estimator fails
(returns no refined sequence) exactly when some image's window lower end
`m_i - i * interval` exceeds another image's window upper end
`m_j - j * interval + 1` — that is, exactly when the running maximum of the
lower ends exceeds the running minimum of the upper ends. -/
theorem estimate_sub_second_time_incompatible_iff (m : ℚ) (rest : List ℚ) (T : ℚ)
    (hT : 0 < T) :
    estimate_sub_second_time (m :: rest) T = .incompatible ↔
    ∃ i < (m :: rest).length, ∃ j < (m :: rest).length,
      window (m :: rest) T j + 1 < window (m :: rest) T i := by
  rw [estimate_incompatible_iff_bounds m rest T hT]
  constructor
  · intro h
    obtain ⟨i, hi, hieq⟩ := lowerBound_attained m rest T
    obtain ⟨j, hj, hjeq⟩ := upperBound_attained m rest T
    exact ⟨i, hi, j, hj, by rw [← hieq, ← hjeq]; exact h⟩
  · rintro ⟨i, hi, j, hj, hlt⟩
    calc upperBound (m :: rest) T ≤ window (m :: rest) T j + 1 :=
          upperBound_le_window m rest T j hj
      _ < window (m :: rest) T i := hlt
      _ ≤ lowerBound (m :: rest) T := window_le_lowerBound m rest T i hi

/-- Witness for `estimate_sub_second_time_incompatible_iff`: recorded times
`[0, 0, 5]` with interval `2` make the estimator fail. -/
theorem estimate_sub_second_time_incompatible_iff_witness :
    estimate_sub_second_time [0, 0, 5] 2 = .incompatible := by
  refine (estimate_sub_second_time_incompatible_iff 0 [0, 5] 2 (by norm_num)).mpr ?_
  refine ⟨2, by norm_num, 1, by norm_num, ?_⟩
  norm_num [window, List.getD]

/-- C4: with a positive interval, at least one image, and a nonempty
feasibility window, the estimator returns `base + i * interval` for each image
`i` in the original order, where `base` is the midpoint of
`[lowerBound, upperBound]`; the output has the same length as the input. -/
theorem estimate_sub_second_time_ok_of_feasible (m : ℚ) (rest : List ℚ) (T : ℚ)
    (hT : 0 < T)
    (hfeas : lowerBound (m :: rest) T ≤ upperBound (m :: rest) T) :
    estimate_sub_second_time (m :: rest) T =
      .ok ((List.range (m :: rest).length).map fun i : ℕ =>
        (lowerBound (m :: rest) T + upperBound (m :: rest) T) / 2 + T * (i : ℚ)) ∧
    ((List.range (m :: rest).length).map fun i : ℕ =>
        (lowerBound (m :: rest) T + upperBound (m :: rest) T) / 2 + T * (i : ℚ)).length
      = (m :: rest).length := by
  constructor
  · simpa [List.length_cons] using estimate_ok_aux m rest T hT hfeas
  · rw [List.length_map, List.length_range, List.length_cons]

/-- Witness for `estimate_sub_second_time_ok_of_feasible`: recorded times
`[0, 2]` with interval `2` have the feasible window `[0, 1]`. -/
theorem estimate_sub_second_time_ok_of_feasible_witness :
    estimate_sub_second_time [0, 2] 2 =
      .ok ((List.range ([(0 : ℚ), 2] : List ℚ).length).map fun i : ℕ =>
        (lowerBound [0, 2] 2 + upperBound [0, 2] 2) / 2 + 2 * (i : ℚ)) ∧
    ((List.range ([(0 : ℚ), 2] : List ℚ).length).map fun i : ℕ =>
        (lowerBound [0, 2] 2 + upperBound [0, 2] 2) / 2 + 2 * (i : ℚ)).length
      = ([(0 : ℚ), 2] : List ℚ).length :=
  estimate_sub_second_time_ok_of_feasible 0 [2] 2 (by norm_num)
    (by norm_num [lowerBound, upperBound, maxLower, minUpper])

/-- Helper: indexing a map over `List.range`. -/
theorem map_range_getD (f : ℕ → ℚ) (n i : ℕ) (h : i < n) :
    ((List.range n).map f).getD i 0 = f i := by
  rw [List.getD_eq_getElem?_getD, List.getElem?_map, List.getElem?_range h]
  rfl

/-- Helper: the `i`-th synthetic recorded time is `floor (base + T * i)`. -/
theorem syntheticTimes_getD (base T : ℚ) (n i : ℕ) (h : i < n) :
    (syntheticTimes base T n).getD i 0 = ((⌊base + T * (i : ℚ)⌋ : ℤ) : ℚ) :=
  map_range_getD _ n i h

/-- Helper: when every window contains `base`, the estimator succeeds and its
refined base differs from `base` by at most half a second. -/
theorem estimate_ok_of_window_bounds (m : ℚ) (rest : List ℚ) (T base : ℚ) (hT : 0 < T)
    (h1 : ∀ i < (m :: rest).length, window (m :: rest) T i ≤ base)
    (h2 : ∀ i < (m :: rest).length, base < window (m :: rest) T i + 1) :
    ∃ base' : ℚ, |base' - base| ≤ 1 / 2 ∧
      estimate_sub_second_time (m :: rest) T =
        .ok ((List.range (rest.length + 1)).map fun i : ℕ => base' + T * (i : ℚ)) := by
  have hlb : lowerBound (m :: rest) T ≤ base := lowerBound_le m rest T base h1
  have hub : base < upperBound (m :: rest) T := lt_upperBound m rest T base h2
  have h0lb : window (m :: rest) T 0 ≤ lowerBound (m :: rest) T :=
    window_le_lowerBound m rest T 0 (by simp)
  have h0ub : upperBound (m :: rest) T ≤ window (m :: rest) T 0 + 1 :=
    upperBound_le_window m rest T 0 (by simp)
  refine ⟨(lowerBound (m :: rest) T + upperBound (m :: rest) T) / 2, ?_, ?_⟩
  · rw [abs_le]
    constructor <;> linarith
  · exact estimate_ok_aux m rest T hT (le_of_lt (lt_of_le_of_lt hlb hub))

/-- C6: on recorded times generated as `floor (base + i * T)` for a positive
interval `T` and at least one image, the estimator succeeds, returns
`base' + i * T` in the original order with `|base' - base| ≤ 1/2` second, and
consecutive output entries differ by exactly `T`. -/
theorem estimate_sub_second_time_synthetic_recovers_base (base T : ℚ) (n : ℕ)
    (hn : 1 ≤ n) (hT : 0 < T) :
    ∃ base' : ℚ, |base' - base| ≤ 1 / 2 ∧
      estimate_sub_second_time (syntheticTimes base T n) T =
        .ok ((List.range n).map fun i : ℕ => base' + T * (i : ℚ)) ∧
      ∀ i : ℕ, i + 1 < n →
        ((List.range n).map fun i : ℕ => base' + T * (i : ℚ)).getD (i + 1) 0
          - ((List.range n).map fun i : ℕ => base' + T * (i : ℚ)).getD i 0 = T := by
  have hlen : (syntheticTimes base T n).length = n := by simp [syntheticTimes]
  obtain ⟨m, rest, hsyn⟩ : ∃ m rest, syntheticTimes base T n = m :: rest := by
    cases hs : syntheticTimes base T n with
    | nil => rw [hs] at hlen; simp at hlen; omega
    | cons m rest => exact ⟨m, rest, rfl⟩
  have hmn : (m :: rest).length = n := by rw [← hsyn, hlen]
  have hwin : ∀ i < n,
      window (m :: rest) T i = ((⌊base + T * (i : ℚ)⌋ : ℤ) : ℚ) - T * (i : ℚ) := by
    intro i hi
    rw [← hsyn, window, syntheticTimes_getD base T n i hi]
  have h1 : ∀ i < (m :: rest).length, window (m :: rest) T i ≤ base := by
    intro i hi
    rw [hwin i (hmn ▸ hi)]
    have := Int.floor_le (base + T * (i : ℚ))
    linarith
  have h2 : ∀ i < (m :: rest).length, base < window (m :: rest) T i + 1 := by
    intro i hi
    rw [hwin i (hmn ▸ hi)]
    have := Int.lt_floor_add_one (base + T * (i : ℚ))
    linarith
  obtain ⟨base', habs, hok⟩ := estimate_ok_of_window_bounds m rest T base hT h1 h2
  have hrn : rest.length + 1 = n := by simpa using hmn
  refine ⟨base', habs, ?_, ?_⟩
  · rw [hsyn, hok, hrn]
  · intro i hi
    rw [map_range_getD _ n (i + 1) hi, map_range_getD _ n i (by omega)]
    push_cast
    ring

/-- Witness for `estimate_sub_second_time_synthetic_recovers_base` at
`base = 0`, `T = 1`, two images. -/
theorem estimate_sub_second_time_synthetic_recovers_base_witness :
    ∃ base' : ℚ, |base' - (0 : ℚ)| ≤ 1 / 2 ∧
      estimate_sub_second_time (syntheticTimes 0 1 2) 1 =
        .ok ((List.range 2).map fun i : ℕ => base' + 1 * (i : ℚ)) ∧
      ∀ i : ℕ, i + 1 < 2 →
        ((List.range 2).map fun i : ℕ => base' + 1 * (i : ℚ)).getD (i + 1) 0
          - ((List.range 2).map fun i : ℕ => base' + 1 * (i : ℚ)).getD i 0 = 1 :=
  estimate_sub_second_time_synthetic_recovers_base 0 1 2 (by norm_num) (by norm_num)

/-- C8: if interpolation signals an out-of-range error for the query time
`time - offset_time` of the image at position `i`, the batch loop still
produces one outcome per image (no abort), and that image's outcome is a skip
carrying the image identifier and the reason, with nothing written. -/
theorem geotagLoop_skips_out_of_range (interp : List GpxPoint → ℚ → Except String Fix)
    (files : List (String × ℚ)) (points : List GpxPoint) (off boff : ℚ)
    (filename : String) (time : ℚ) (i : ℕ) (e : String)
    (hi : i < files.length)
    (hfile : files.getD i ("", 0) = (filename, time))
    (herr : interp points (time - off) = .error e) :
    (geotagLoop interp files points off boff).length = files.length ∧
    (geotagLoop interp files points off boff).getD i (.skipped "" "")
      = .skipped filename e := by
  constructor
  · simp [geotagLoop]
  · have hget : files[i]? = some (filename, time) := by
      rw [List.getD_eq_getElem?_getD, List.getElem?_eq_getElem hi] at hfile
      rw [List.getElem?_eq_getElem hi]
      simpa using hfile
    rw [geotagLoop, List.getD_eq_getElem?_getD, List.getElem?_map, hget]
    simp [add_exif_using_timestamp, herr]

/-- Witness for `geotagLoop_skips_out_of_range`: a two-image batch whose
interpolator always reports out-of-range skips the first image with its reason
and still yields an outcome for every image. -/
theorem geotagLoop_skips_out_of_range_witness :
    (geotagLoop (fun _ _ => .error "time out of range")
        [("a.jpg", 0), ("b.jpg", 1)] [] 0 0).length
      = ([("a.jpg", (0 : ℚ)), ("b.jpg", 1)] : List (String × ℚ)).length ∧
    (geotagLoop (fun _ _ => .error "time out of range")
        [("a.jpg", 0), ("b.jpg", 1)] [] 0 0).getD 0 (.skipped "" "")
      = .skipped "a.jpg" "time out of range" :=
  geotagLoop_skips_out_of_range (fun _ _ => .error "time out of range")
    [("a.jpg", 0), ("b.jpg", 1)] [] 0 0 "a.jpg" 0 0 "time out of range"
    (by decide) rfl rfl

/-- Helper: characterization of one lexicographic comparison step. -/
theorem lexStep_eq_true_iff (a b : ℚ) (r : Bool) :
    lexStep a b r = true ↔ a < b ∨ (a = b ∧ r = true) := by
  unfold lexStep
  rcases lt_trichotomy a b with h | h | h
  · simp [h]
  · simp [h, lt_irrefl]
  · simp [lt_asymm h, h, ne_of_gt h]

/-- Helper: a lexicographic step is total when the tie-break is. -/
theorem lexStep_total (a b : ℚ) (r s : Bool) (h : r = true ∨ s = true) :
    lexStep a b r = true ∨ lexStep b a s = true := by
  rcases lt_trichotomy a b with hab | hab | hab
  · left; rw [lexStep_eq_true_iff]; exact Or.inl hab
  · rcases h with h | h
    · left; rw [lexStep_eq_true_iff]; exact Or.inr ⟨hab, h⟩
    · right; rw [lexStep_eq_true_iff]; exact Or.inr ⟨hab.symm, h⟩
  · right; rw [lexStep_eq_true_iff]; exact Or.inl hab

/-- Helper: a lexicographic step is transitive when the tie-break is. -/
theorem lexStep_trans (a b c : ℚ) (r s t : Bool)
    (hrst : r = true → s = true → t = true)
    (h1 : lexStep a b r = true) (h2 : lexStep b c s = true) :
    lexStep a c t = true := by
  rw [lexStep_eq_true_iff] at h1 h2 ⊢
  rcases h1 with h1 | ⟨hab, hr⟩
  · rcases h2 with h2 | ⟨hbc, _⟩
    · exact Or.inl (lt_trans h1 h2)
    · exact Or.inl (hbc ▸ h1)
  · rcases h2 with h2 | ⟨hbc, hs⟩
    · exact Or.inl (hab ▸ h2)
    · exact Or.inr ⟨hab.trans hbc, hrst hr hs⟩

/-- Helper: the optional-elevation comparison is total. -/
theorem optLe_total (x y : Option ℚ) : optLe x y = true ∨ optLe y x = true := by
  cases x <;> cases y <;> simp [optLe, le_total]

/-- Helper: the optional-elevation comparison is transitive. -/
theorem optLe_trans (x y z : Option ℚ) (h1 : optLe x y = true) (h2 : optLe y z = true) :
    optLe x z = true := by
  cases x with
  | none => rfl
  | some a =>
    cases z with
    | none =>
      cases y with
      | none => exact absurd h1 (by simp [optLe])
      | some b => exact absurd h2 (by simp [optLe])
    | some c =>
      cases y with
      | none => exact absurd h1 (by simp [optLe])
      | some b =>
        simp only [optLe, decide_eq_true_eq] at h1 h2 ⊢
        exact le_trans h1 h2

/-- Helper: the tuple comparison used by `points.sort()` is total. -/
theorem ptLe_total (p q : GpxPoint) : ptLe p q = true ∨ ptLe q p = true := by
  unfold ptLe
  exact lexStep_total _ _ _ _
    (lexStep_total _ _ _ _ (lexStep_total _ _ _ _ (optLe_total _ _)))

/-- Helper: the tuple comparison used by `points.sort()` is transitive. -/
theorem ptLe_trans (p q w : GpxPoint) (h1 : ptLe p q = true) (h2 : ptLe q w = true) :
    ptLe p w = true := by
  unfold ptLe at h1 h2 ⊢
  refine lexStep_trans _ _ _ _ _ _ ?_ h1 h2
  intro ha hb
  refine lexStep_trans _ _ _ _ _ _ ?_ ha hb
  intro hc hd
  refine lexStep_trans _ _ _ _ _ _ ?_ hc hd
  intro he hf
  exact optLe_trans _ _ _ he hf

/-- Helper: the tuple comparison orders first by time. -/
theorem ptLe_time_le (p q : GpxPoint) (h : ptLe p q = true) : p.time ≤ q.time := by
  unfold ptLe at h
  rw [lexStep_eq_true_iff] at h
  rcases h with h | ⟨h, _⟩
  · exact le_of_lt h
  · exact le_of_eq h

/-- C7: the loader's output is a permutation of the concatenation of all
track-segment points and all waypoints — with the UTC-to-local conversion
applied to every point when the flag is set and to none otherwise — and is
non-decreasing in time. -/
theorem get_lat_lon_time_perm_sorted (conv : ℚ → ℚ) (g : GpxFile) (flag : Bool) :
    (get_lat_lon_time conv g flag).Perm
      ((gpxAllPoints g).map fun p => if flag then applyLocaltime conv p else p) ∧
    List.Pairwise (fun p q : GpxPoint => p.time ≤ q.time)
      (get_lat_lon_time conv g flag) := by
  constructor
  · rw [get_lat_lon_time, collectPoints_eq_map]
    exact List.mergeSort_perm _ _
  · rw [get_lat_lon_time]
    have h := List.sorted_mergeSort
      (fun a b c hab hbc => ptLe_trans a b c hab hbc)
      (fun a b => by rcases ptLe_total a b with h | h <;> simp [h])
      (collectPoints conv flag g)
    exact h.imp fun hab => ptLe_time_le _ _ hab

end Geotag
